import Mathlib

/-!
# Verification of the WebSQL key-value storage adapter

A shallow embedding of `src/frontend/websql-kvstore.ts`: the `WebSQLKVStore`
store handle, the `WebSQLTransaction` read/write transaction with its
`Map`-backed cache of `{value, dirty}` entries, and the JSON text encoding
(`JSON.stringify` / `JSON.parse`) used for the `v` column of the `entry`
table.  Backing-engine I/O is made observable as a list of issued
parameterized statements.
-/

set_option maxHeartbeats 1000000

/-! ## JSON values

`ReadonlyJSONValue` from the source: null, booleans, numbers, strings,
arrays and objects.  Numbers are modelled as integers (the embedding does
not model IEEE-754 doubles).  Arrays and object field lists are bespoke
mutual inductives so that structural recursion and induction over the
nesting are available. -/

mutual

inductive JSONValue where
  | null : JSONValue
  | bool : Bool → JSONValue
  | num : Int → JSONValue
  | str : String → JSONValue
  | arr : JSONList → JSONValue
  | obj : JSONFields → JSONValue
deriving DecidableEq

inductive JSONList where
  | nil : JSONList
  | cons : JSONValue → JSONList → JSONList
deriving DecidableEq

inductive JSONFields where
  | nil : JSONFields
  | cons : String → JSONValue → JSONFields → JSONFields
deriving DecidableEq

end

/-! ## Printing: model of `JSON.stringify` on the value space above -/

/-- The character `{` (code point 123), kept as a named constant. -/
def lbrace : Char := Char.ofNat 123

/-- The character `}` (code point 125), kept as a named constant. -/
def rbrace : Char := Char.ofNat 125

/-- Decimal digit character for `d < 10`. -/
def digitChar (d : Nat) : Char := Char.ofNat (48 + d)

/-- Fueled decimal printer for `Nat` (most significant digit first).
Structurally recursive on the fuel so that it evaluates by `decide`. -/
def printNatAux : Nat → Nat → List Char
  | 0, _ => []
  | fuel + 1, n =>
    if n < 10 then [digitChar n]
    else printNatAux fuel (n / 10) ++ [digitChar (n % 10)]

/-- Decimal representation of `n`, as `JSON.stringify` prints a
non-negative integer. -/
def printNat (n : Nat) : List Char := printNatAux (n + 1) n

/-- Decimal representation of an integer, with a leading `-` when
negative. -/
def printInt (n : Int) : List Char :=
  if n < 0 then '-' :: printNat n.natAbs else printNat n.natAbs

/-- JSON string escaping: `"` and `\` get a backslash prefix, every other
character stands for itself. -/
def escapeChar (c : Char) : List Char :=
  if c = '"' then ['\\', '"']
  else if c = '\\' then ['\\', '\\']
  else [c]

/-- Escape a character list (the body of a JSON string literal). -/
def escapeList : List Char → List Char
  | [] => []
  | c :: cs => escapeChar c ++ escapeList cs

/-- A JSON string literal: quote, escaped body, quote. -/
def printJString (s : String) : List Char :=
  '"' :: (escapeList s.data ++ ['"'])

/-- The characters of a keyword literal (`null`, `true`, `false`). -/
def kw (s : String) : List Char := s.data

mutual

/-- Model of `JSON.stringify`: canonical JSON text (no whitespace) of a
value, as a character list. -/
def printValue : JSONValue → List Char
  | .null => kw "null"
  | .bool true => kw "true"
  | .bool false => kw "false"
  | .num n => printInt n
  | .str s => printJString s
  | .arr xs => '[' :: (printArrayBody xs ++ [']'])
  | .obj fs => lbrace :: (printObjBody fs ++ [rbrace])

/-- Comma-separated element list of an array (no brackets). -/
def printArrayBody : JSONList → List Char
  | .nil => []
  | .cons v .nil => printValue v
  | .cons v (.cons w rest) =>
      printValue v ++ ',' :: printArrayBody (.cons w rest)

/-- Comma-separated `"key":value` list of an object (no braces). -/
def printObjBody : JSONFields → List Char
  | .nil => []
  | .cons k v .nil => printJString k ++ ':' :: printValue v
  | .cons k v (.cons k2 w rest) =>
      printJString k ++ ':' :: printValue v ++ ',' :: printObjBody (.cons k2 w rest)

end

/-- `JSON.stringify` as a `String`-valued function, the encoding written
into the `v` column by `commit()`. -/
def jsonStringify (v : JSONValue) : String := String.mk (printValue v)

/-! ## Parsing: model of `JSON.parse` on canonical JSON text -/

/-- Is `c` a decimal digit? -/
def isDigitChar (c : Char) : Bool := 48 ≤ c.toNat && c.toNat ≤ 57

/-- Consume a maximal run of decimal digits, folding them onto `acc`;
returns the value and the unconsumed remainder. -/
def parseDigits : List Char → Nat → Nat × List Char
  | [], acc => (acc, [])
  | c :: cs, acc =>
    if isDigitChar c then parseDigits cs (acc * 10 + (c.toNat - 48))
    else (acc, c :: cs)

/-- Parse the body of a JSON string literal after the opening quote:
unescape until the closing quote, returning the body and the remainder. -/
def parseStringBody : List Char → Option (List Char × List Char)
  | [] => none
  | c :: rest =>
    if c = '"' then some ([], rest)
    else if c = '\\' then
      match rest with
      | [] => none
      | d :: rest2 =>
        match parseStringBody rest2 with
        | none => none
        | some (s, r) => some (d :: s, r)
    else
      match parseStringBody rest with
      | none => none
      | some (s, r) => some (c :: s, r)

mutual

/-- Fueled recursive-descent parser for one JSON value; returns the value
and the unconsumed remainder. -/
def parseValue : Nat → List Char → Option (JSONValue × List Char)
  | 0, _ => none
  | _ + 1, [] => none
  | fuel + 1, c :: cs =>
    if c = 'n' then
      match cs with
      | 'u' :: 'l' :: 'l' :: rest => some (.null, rest)
      | _ => none
    else if c = 't' then
      match cs with
      | 'r' :: 'u' :: 'e' :: rest => some (.bool true, rest)
      | _ => none
    else if c = 'f' then
      match cs with
      | 'a' :: 'l' :: 's' :: 'e' :: rest => some (.bool false, rest)
      | _ => none
    else if c = '"' then
      match parseStringBody cs with
      | none => none
      | some (s, rest) => some (.str (String.mk s), rest)
    else if c = '[' then
      match cs with
      | [] => none
      | c2 :: cs2 =>
        if c2 = ']' then some (.arr .nil, cs2)
        else
          match parseArrayItems fuel (c2 :: cs2) with
          | none => none
          | some (xs, rest) => some (.arr xs, rest)
    else if c = lbrace then
      match cs with
      | [] => none
      | c2 :: rest =>
        if c2 = rbrace then some (.obj .nil, rest)
        else
          match parseObjItems fuel (c2 :: rest) with
          | none => none
          | some (fs, rest2) => some (.obj fs, rest2)
    else if c = '-' then
      match cs with
      | [] => none
      | d :: _ =>
        if isDigitChar d then
          let (n, r) := parseDigits cs 0
          some (.num (-(n : Int)), r)
        else none
    else if isDigitChar c then
      let (n, r) := parseDigits (c :: cs) 0
      some (.num (n : Int), r)
    else none

/-- Parse one or more comma-separated values terminated by `]`. -/
def parseArrayItems : Nat → List Char → Option (JSONList × List Char)
  | 0, _ => none
  | fuel + 1, cs =>
    match parseValue fuel cs with
    | none => none
    | some (v, rest) =>
      match rest with
      | [] => none
      | c2 :: rest2 =>
        if c2 = ',' then
          match parseArrayItems fuel rest2 with
          | none => none
          | some (xs, r) => some (.cons v xs, r)
        else if c2 = ']' then some (.cons v .nil, rest2)
        else none

/-- Parse one or more comma-separated `"key":value` pairs terminated by
the closing brace. -/
def parseObjItems : Nat → List Char → Option (JSONFields × List Char)
  | 0, _ => none
  | fuel + 1, cs =>
    match cs with
    | '"' :: cs2 =>
      match parseStringBody cs2 with
      | none => none
      | some (k, rest) =>
        match rest with
        | ':' :: rest2 =>
          match parseValue fuel rest2 with
          | none => none
          | some (v, rest3) =>
            match rest3 with
            | [] => none
            | c3 :: rest4 =>
              if c3 = ',' then
                match parseObjItems fuel rest4 with
                | none => none
                | some (fs, r) => some (.cons (String.mk k) v fs, r)
              else if c3 = rbrace then some (.cons (String.mk k) v .nil, rest4)
              else none
        | _ => none
    | _ => none

end

/-- Model of `JSON.parse` as used by `get()`: parse one value and require
the whole input to be consumed; malformed text yields `none` (the source
`JSON.parse` throws). -/
def jsonParse (s : String) : Option JSONValue :=
  match parseValue s.data.length s.data with
  | some (v, []) => some v
  | _ => none

/-! ## The storage adapter model

Translated from `src/frontend/websql-kvstore.ts`.  The backing `entry`
table is a row list `(k, v)` with `v` holding JSON text; engine I/O is
observable as the list of parameterized statements an operation issues. -/

/-- A parameterized statement issued against the backing engine: the
three statements `websql-kvstore.ts` executes against the `entry` table. -/
inductive SQLStatement where
  | selectEntry : String → SQLStatement
  | deleteEntry : String → SQLStatement
  | upsertEntry : String → String → SQLStatement
deriving DecidableEq

/-- Failures surfaced by the adapter: the closed-store / closed-transaction
throw, and a `JSON.parse` failure on a stored row. -/
inductive StoreError where
  | closedError : StoreError
  | serializationError : StoreError
deriving DecidableEq

/-- A cache entry of `WebSQLTransaction._cache`: `value = none` is the
tombstone/miss marker (`undefined`), `dirty` marks entries staged by this
transaction's own `put`/`del`. -/
structure CacheEntry where
  value : Option JSONValue
  dirty : Bool
deriving DecidableEq

/-- The backing `entry` table: rows `(k, v)` with `v` JSON text. -/
abbrev Backing := List (String × String)

/-- Point lookup in the backing table (`select v from entry where k = ?`). -/
def backingLookup : Backing → String → Option String
  | [], _ => none
  | (k', v) :: rest, k => if k' = k then some v else backingLookup rest k

/-- JS `Map.prototype.get`. -/
def cacheGet : List (String × CacheEntry) → String → Option CacheEntry
  | [], _ => none
  | (k', e) :: rest, k => if k' = k then some e else cacheGet rest k

/-- JS `Map.prototype.set`: replace in place when the key exists
(preserving insertion order), otherwise append. -/
def cacheSet : List (String × CacheEntry) → String → CacheEntry → List (String × CacheEntry)
  | [], k, e => [(k, e)]
  | (k', e') :: rest, k, e =>
    if k' = k then (k, e) :: rest else (k', e') :: cacheSet rest k e

/-- State of a `WebSQLTransaction`: whether `_tx` is still defined (the
backing transaction handle), whether it was opened writable, and the
`_cache` map in insertion order. -/
structure WebSQLTransaction where
  tx : Bool
  writeable : Bool
  cache : List (String × CacheEntry)
deriving DecidableEq

namespace WebSQLTransaction

/-- `get(key)`: cache first; on a cache miss, require the backing handle
(`_getTX` throws when released), issue one point lookup, `JSON.parse` the
row if present, record the result (a miss as `undefined`) in the cache.
Returns the value, the updated transaction, and the statements issued. -/
def get (t : WebSQLTransaction) (b : Backing) (key : String) :
    Except StoreError (Option JSONValue × WebSQLTransaction × List SQLStatement) :=
  match cacheGet t.cache key with
  | some entry => .ok (entry.value, t, [])
  | none =>
    if t.tx then
      match backingLookup b key with
      | none =>
        .ok (none, { t with cache := cacheSet t.cache key ⟨none, false⟩ },
          [.selectEntry key])
      | some s =>
        match jsonParse s with
        | none => .error .serializationError
        | some v =>
          .ok (some v, { t with cache := cacheSet t.cache key ⟨some v, false⟩ },
            [.selectEntry key])
    else .error .closedError

/-- `has(key)`: `(await this.get(key)) !== undefined`. -/
def has (t : WebSQLTransaction) (b : Backing) (key : String) :
    Except StoreError (Bool × WebSQLTransaction × List SQLStatement) :=
  match t.get b key with
  | .ok (v, t', s) => .ok (v.isSome, t', s)
  | .error e => .error e

/-- `put(key, value)`: stage `{value, dirty: true}` in the cache;
no statement is issued. -/
def put (t : WebSQLTransaction) (key : String) (value : JSONValue) :
    WebSQLTransaction × List SQLStatement :=
  ({ t with cache := cacheSet t.cache key ⟨some value, true⟩ }, [])

/-- `del(key)`: stage `{value: undefined, dirty: true}` in the cache;
no statement is issued. -/
def del (t : WebSQLTransaction) (key : String) :
    WebSQLTransaction × List SQLStatement :=
  ({ t with cache := cacheSet t.cache key ⟨none, true⟩ }, [])

/-- `release()`: drop the backing transaction handle. -/
def release (t : WebSQLTransaction) : WebSQLTransaction :=
  { t with tx := false }

/-- The `closed` getter: `this._tx === undefined`. -/
def closed (t : WebSQLTransaction) : Bool := !t.tx

/-- `commit()`: require the backing handle, then for every cache entry
with `dirty` set issue `delete from entry where k = ?` when the value is
the tombstone, else `insert or replace into entry (k, v) values (?, ?)`
with the JSON text of the value.  The cache and handle are not touched. -/
def commit (t : WebSQLTransaction) :
    Except StoreError (WebSQLTransaction × List SQLStatement) :=
  if t.tx then
    .ok (t,
      (t.cache.filter (fun e => e.2.dirty)).map (fun e =>
        match e.2.value with
        | none => SQLStatement.deleteEntry e.1
        | some v => SQLStatement.upsertEntry e.1 (jsonStringify v)))
  else .error .closedError

end WebSQLTransaction

/-- State of a `WebSQLKVStore`: whether `_db` is still defined. -/
structure WebSQLKVStore where
  db : Bool
deriving DecidableEq

namespace WebSQLKVStore

/-- `read()`: require the connection (`_getDB` throws when closed) and
construct a fresh read transaction with an open handle and empty cache. -/
def read (s : WebSQLKVStore) : Except StoreError WebSQLTransaction :=
  if s.db then .ok ⟨true, false, []⟩ else .error .closedError

/-- `write()`: like `read()` but the transaction is writable. -/
def write (s : WebSQLKVStore) : Except StoreError WebSQLTransaction :=
  if s.db then .ok ⟨true, true, []⟩ else .error .closedError

/-- `close()`: discard the connection handle.  No statement is issued. -/
def close (_s : WebSQLKVStore) : WebSQLKVStore × List SQLStatement :=
  (⟨false⟩, [])

/-- The `closed` getter: `this._db === undefined`. -/
def closed (s : WebSQLKVStore) : Bool := !s.db

end WebSQLKVStore

/-- Effect of a statement on the backing table: `select` reads only,
`delete` removes the key's row, upsert replaces the row in place or
appends it. -/
def applyStmt (b : Backing) : SQLStatement → Backing
  | .selectEntry _ => b
  | .deleteEntry k => b.filter (fun r => r.1 ≠ k)
  | .upsertEntry k v =>
    if (backingLookup b k).isSome then
      b.map (fun r => if r.1 = k then (k, v) else r)
    else b ++ [(k, v)]

/-- Effect of a statement batch on the backing table, in order. -/
def applyStmts (b : Backing) : List SQLStatement → Backing
  | [] => b
  | s :: rest => applyStmts (applyStmt b s) rest

/-! ## Basic cache lemmas -/

/-- Looking up a key just written by `cacheSet` yields the new entry. -/
theorem cacheGet_cacheSet_self (c : List (String × CacheEntry)) (k : String) (e : CacheEntry) :
    cacheGet (cacheSet c k e) k = some e := by
  induction c with
  | nil => simp [cacheSet, cacheGet]
  | cons p rest ih =>
    obtain ⟨k', e'⟩ := p
    by_cases h : k' = k <;> simp [cacheSet, cacheGet, h, ih]

/-! ## Claims about the transaction operations -/

/-- C2: read-your-writes inside one transaction.  After `put k v` and
before `commit`, `get k` returns `v` and `has k` is `true`; after `del k`,
`get k` returns the miss marker (`undefined`) and `has k` is `false` —
the staged write is served from the cache, with no statement issued,
regardless of the backing table contents. -/
theorem read_your_writes (t : WebSQLTransaction) (b : Backing) (k : String)
    (v : JSONValue) :
    (t.put k v).1.get b k = .ok (some v, (t.put k v).1, []) ∧
    (t.put k v).1.has b k = .ok (true, (t.put k v).1, []) ∧
    (t.del k).1.get b k = .ok (none, (t.del k).1, []) ∧
    (t.del k).1.has b k = .ok (false, (t.del k).1, []) := by
  simp [WebSQLTransaction.put, WebSQLTransaction.del, WebSQLTransaction.get,
    WebSQLTransaction.has, cacheGet_cacheSet_self]

/-- C4: `put` and `del` only stage a `{value, dirty: true}` entry
(tombstone for `del`) in the transaction's own cache and issue no
statement; applying the (empty) statement batch leaves the backing table
unchanged, so a `get` through any other concurrently open transaction is
unaffected. -/
theorem put_del_stage_only (t t2 : WebSQLTransaction) (b : Backing)
    (k k2 : String) (v : JSONValue) :
    (t.put k v).2 = [] ∧
    (t.del k).2 = [] ∧
    cacheGet (t.put k v).1.cache k = some ⟨some v, true⟩ ∧
    cacheGet (t.del k).1.cache k = some ⟨none, true⟩ ∧
    applyStmts b (t.put k v).2 = b ∧
    applyStmts b (t.del k).2 = b ∧
    t2.get (applyStmts b (t.put k v).2) k2 = t2.get b k2 ∧
    t2.has (applyStmts b (t.del k).2) k2 = t2.has b k2 := by
  simp [WebSQLTransaction.put, WebSQLTransaction.del, applyStmts,
    cacheGet_cacheSet_self]

/-- C6: `close()` on the store is idempotent, sets `closed`, and issues no
statement (so it neither flushes nor aborts anything); afterwards both
`read()` and `write()` fail with `ClosedError`. -/
theorem close_store (s : WebSQLKVStore) (b : Backing) :
    (s.close).1.closed = true ∧
    (s.close).1.close = s.close ∧
    (s.close).2 = [] ∧
    applyStmts b (s.close).2 = b ∧
    (s.close).1.read = .error .closedError ∧
    (s.close).1.write = .error .closedError := by
  simp [WebSQLKVStore.close, WebSQLKVStore.closed, WebSQLKVStore.read,
    WebSQLKVStore.write, applyStmts]

/-- C8: `has` agrees with `get` on the same transaction state: it returns
`true` exactly when `get` returns a value other than `undefined`, `false`
exactly when `get` returns `undefined`, and the same error when `get`
fails; the resulting transaction state and issued statements coincide. -/
theorem has_iff_get (t : WebSQLTransaction) (b : Backing) (k : String)
    (t' : WebSQLTransaction) (s : List SQLStatement) (e : StoreError) :
    (t.has b k = .ok (true, t', s) ↔ ∃ v, t.get b k = .ok (some v, t', s)) ∧
    (t.has b k = .ok (false, t', s) ↔ t.get b k = .ok (none, t', s)) ∧
    (t.has b k = .error e ↔ t.get b k = .error e) := by
  unfold WebSQLTransaction.has
  rcases h : t.get b k with e' | ⟨v, t2, s2⟩
  · simp [h]
  · rcases v with _ | w <;> simp [h, Option.isSome]

/-! ## Commit -/

/-- Specification-side description of the commit batch (stated
independently of `commit`'s `filter`/`map`): walk the cache in order; a
dirty tombstone contributes a delete of the key's row, any other dirty
entry a single insert-or-replace of the key and the JSON text of the
value, and a clean entry contributes nothing. -/
def specDirtyStatements : List (String × CacheEntry) → List SQLStatement
  | [] => []
  | (k, e) :: rest =>
    if e.dirty then
      (match e.value with
        | none => SQLStatement.deleteEntry k
        | some v => SQLStatement.upsertEntry k (jsonStringify v)) :: specDirtyStatements rest
    else specDirtyStatements rest

/-- The `filter`-then-`map` batch built by `commit` coincides with the
specification-side description. -/
theorem commit_batch_eq_spec (c : List (String × CacheEntry)) :
    (c.filter (fun e => e.2.dirty)).map (fun e =>
      match e.2.value with
      | none => SQLStatement.deleteEntry e.1
      | some v => SQLStatement.upsertEntry e.1 (jsonStringify v)) =
    specDirtyStatements c := by
  induction c with
  | nil => simp [specDirtyStatements]
  | cons p rest ih =>
    obtain ⟨k, e⟩ := p
    by_cases h : e.dirty <;> simp [specDirtyStatements, h, ih]

/-- A cache with no dirty entry contributes an empty batch. -/
theorem specDirtyStatements_of_clean :
    ∀ c : List (String × CacheEntry),
      (∀ p ∈ c, p.2.dirty = false) → specDirtyStatements c = []
  | [], _ => rfl
  | (k, e) :: rest, h => by
    have hd := h (k, e) (by simp)
    have ht := specDirtyStatements_of_clean rest fun q hq => h q (by simp [hq])
    simp [specDirtyStatements, show e.dirty = false from hd, ht]

/-- C1: on an open transaction, `commit()` issues a statement exactly for
each dirty cache entry — a delete of the key's row for a dirty tombstone,
one insert-or-replace of `(key, JSON text)` otherwise — clean entries
issue nothing, and a commit with zero dirty entries issues zero
statements. -/
theorem commit_flushes_exactly_dirty (t : WebSQLTransaction)
    (h : t.tx = true) :
    t.commit = .ok (t, specDirtyStatements t.cache) ∧
    ((∀ p ∈ t.cache, p.2.dirty = false) → t.commit = .ok (t, [])) := by
  refine ⟨?_, fun hc => ?_⟩
  · simp [WebSQLTransaction.commit, h, commit_batch_eq_spec]
  · simp [WebSQLTransaction.commit, h, commit_batch_eq_spec,
      specDirtyStatements_of_clean t.cache hc]

/-- Witness for C1 at a concrete transaction: a dirty put of `1` under
`"a"`, a clean entry under `"b"`, and a dirty tombstone under `"c"`
produce exactly an upsert of `("a", "1")` and a delete of `"c"`; a
transaction whose only entry is clean produces the empty batch. -/
theorem commit_flushes_exactly_dirty_witness :
    WebSQLTransaction.commit
        ⟨true, true, [("a", ⟨some (.num 1), true⟩), ("b", ⟨some (.bool true), false⟩),
          ("c", ⟨none, true⟩)]⟩ =
      .ok (⟨true, true, [("a", ⟨some (.num 1), true⟩), ("b", ⟨some (.bool true), false⟩),
          ("c", ⟨none, true⟩)]⟩,
        [.upsertEntry "a" "1", .deleteEntry "c"]) ∧
    WebSQLTransaction.commit ⟨true, false, [("b", ⟨some (.bool true), false⟩)]⟩ =
      .ok (⟨true, false, [("b", ⟨some (.bool true), false⟩)]⟩, []) := by
  constructor
  · have h := (commit_flushes_exactly_dirty
      ⟨true, true, [("a", ⟨some (.num 1), true⟩), ("b", ⟨some (.bool true), false⟩),
        ("c", ⟨none, true⟩)]⟩ rfl).1
    rw [h]
    rfl
  · have h := (commit_flushes_exactly_dirty
      ⟨true, false, [("b", ⟨some (.bool true), false⟩)]⟩ rfl).2 (by decide)
    exact h

/-- C10: a successful `commit()` returns the transaction unchanged — the
handle and every cache entry (value and dirty flag) are exactly as before
the call — so committing again on the same still-open transaction
succeeds and issues the same statement batch. -/
theorem commit_preserves_cache (t t' : WebSQLTransaction)
    (s : List SQLStatement) (h : t.commit = .ok (t', s)) :
    t' = t ∧ t'.cache = t.cache ∧ t'.tx = t.tx ∧ t'.commit = .ok (t', s) := by
  unfold WebSQLTransaction.commit at h ⊢
  split at h
  next htx =>
    rw [Except.ok.injEq, Prod.mk.injEq] at h
    obtain ⟨rfl, rfl⟩ := h
    simp [htx]
  next => simp at h

/-- Witness for C10: committing twice on a concrete open transaction with
one dirty entry yields the same result both times, with the cache intact. -/
theorem commit_preserves_cache_witness :
    (⟨true, true, [("a", ⟨some (.num 2), true⟩)]⟩ : WebSQLTransaction) =
        ⟨true, true, [("a", ⟨some (.num 2), true⟩)]⟩ ∧
    WebSQLTransaction.commit ⟨true, true, [("a", ⟨some (.num 2), true⟩)]⟩ =
      .ok (⟨true, true, [("a", ⟨some (.num 2), true⟩)]⟩, [.upsertEntry "a" "2"]) := by
  have h := commit_preserves_cache ⟨true, true, [("a", ⟨some (.num 2), true⟩)]⟩
    ⟨true, true, [("a", ⟨some (.num 2), true⟩)]⟩ [.upsertEntry "a" "2"] (by rfl)
  exact ⟨h.1, h.2.2.2⟩

/-! ## Release and post-commit behaviour -/

/-- C3 counterexample: `release()` does not make every operation fail.
On a released transaction whose cache holds `"a"` (staged by `put` before
the release), `get "a"` still returns the cached value, and `put` on a
released transaction still stages an entry — neither fails with
`ClosedError`. -/
theorem release_ops_counterexample :
    ((WebSQLTransaction.put ⟨true, true, []⟩ "a" (.num 1)).1.release.get [] "a"
      = .ok (some (.num 1), ⟨false, true, [("a", ⟨some (.num 1), true⟩)]⟩, [])) ∧
    ((WebSQLTransaction.release ⟨true, true, []⟩).put "b" (.num 2)
      = (⟨false, true, [("b", ⟨some (.num 2), true⟩)]⟩, [])) :=
  ⟨rfl, rfl⟩

/-- C3 (amended): after `release()`, exactly the operations that need the
backing handle fail with `ClosedError` — `commit` always, and `get`/`has`
for keys with no cache entry; `get`/`has` on a key already in the cache
return the cached value without error, and `put`/`del` still stage
entries without error and without I/O. -/
theorem release_closes_backing_ops (t : WebSQLTransaction) (b : Backing)
    (k : String) (v : JSONValue) (e : CacheEntry) (h : t.closed = true) :
    t.commit = .error .closedError ∧
    (cacheGet t.cache k = none →
      t.get b k = .error .closedError ∧ t.has b k = .error .closedError) ∧
    (cacheGet t.cache k = some e →
      t.get b k = .ok (e.value, t, []) ∧
      t.has b k = .ok (e.value.isSome, t, [])) ∧
    (t.put k v).2 = [] ∧ (t.del k).2 = [] := by
  have htx : t.tx = false := by simpa [WebSQLTransaction.closed] using h
  refine ⟨?_, fun hk => ?_, fun hk => ?_, rfl, rfl⟩
  · simp [WebSQLTransaction.commit, htx]
  · constructor <;> simp [WebSQLTransaction.get, WebSQLTransaction.has, hk, htx]
  · constructor <;> simp [WebSQLTransaction.get, WebSQLTransaction.has, hk, htx]

/-- Witness for the amended C3 on a concrete released transaction holding
a clean cached entry for `"a"`: commit and an uncached `get "z"` fail with
`ClosedError`, while `get "a"` still answers from the cache. -/
theorem release_closes_backing_ops_witness :
    WebSQLTransaction.commit ⟨false, true, [("a", ⟨some (.num 2), false⟩)]⟩ =
      .error .closedError ∧
    WebSQLTransaction.get ⟨false, true, [("a", ⟨some (.num 2), false⟩)]⟩ [] "z" =
      .error .closedError ∧
    WebSQLTransaction.get ⟨false, true, [("a", ⟨some (.num 2), false⟩)]⟩ [] "a" =
      .ok (some (.num 2), ⟨false, true, [("a", ⟨some (.num 2), false⟩)]⟩, []) := by
  have h1 := release_closes_backing_ops
    ⟨false, true, [("a", ⟨some (.num 2), false⟩)]⟩ [] "z" (.num 0) ⟨none, false⟩ rfl
  have h2 := release_closes_backing_ops
    ⟨false, true, [("a", ⟨some (.num 2), false⟩)]⟩ [] "a" (.num 0)
    ⟨some (.num 2), false⟩ rfl
  exact ⟨h1.1, (h1.2.1 rfl).1, (h2.2.2.1 rfl).1⟩

/-- C7 counterexample: `commit()` does not mark the transaction used.  On
a concrete open transaction, commit succeeds and a subsequent `get`
returns the cached value rather than failing with `ClosedError`. -/
theorem commit_then_ops_counterexample :
    WebSQLTransaction.commit ⟨true, true, [("a", ⟨some (.num 1), true⟩)]⟩ =
      .ok (⟨true, true, [("a", ⟨some (.num 1), true⟩)]⟩, [.upsertEntry "a" "1"]) ∧
    WebSQLTransaction.get ⟨true, true, [("a", ⟨some (.num 1), true⟩)]⟩ [] "a" =
      .ok (some (.num 1), ⟨true, true, [("a", ⟨some (.num 1), true⟩)]⟩, []) ∧
    WebSQLTransaction.get ⟨true, true, [("a", ⟨some (.num 1), true⟩)]⟩ [] "a" ≠
      .error .closedError :=
  ⟨rfl, rfl, fun h => Except.noConfusion h⟩

/-- C7 (amended): a successful `commit()` does not invalidate the
transaction: it returns it unchanged and still open (`closed` is
`false`), so later operations behave exactly as before the commit; only
`release()` closes it. -/
theorem commit_leaves_transaction_open (t t' : WebSQLTransaction)
    (s : List SQLStatement) (h : t.commit = .ok (t', s)) :
    t' = t ∧ t'.closed = false := by
  unfold WebSQLTransaction.commit at h
  split at h
  next htx =>
    rw [Except.ok.injEq, Prod.mk.injEq] at h
    obtain ⟨rfl, rfl⟩ := h
    exact ⟨rfl, by simp [WebSQLTransaction.closed, htx]⟩
  next => simp at h

/-- Witness for the amended C7: committing a concrete open transaction
leaves it unchanged and open. -/
theorem commit_leaves_transaction_open_witness :
    (⟨true, true, [("a", ⟨some (.num 3), true⟩)]⟩ : WebSQLTransaction) =
        ⟨true, true, [("a", ⟨some (.num 3), true⟩)]⟩ ∧
    WebSQLTransaction.closed ⟨true, true, [("a", ⟨some (.num 3), true⟩)]⟩ = false :=
  commit_leaves_transaction_open
    ⟨true, true, [("a", ⟨some (.num 3), true⟩)]⟩
    ⟨true, true, [("a", ⟨some (.num 3), true⟩)]⟩
    [.upsertEntry "a" "3"] (by rfl)

/-! ## Caching of reads -/

/-- C5: the first `get k` on a transaction with no cache entry for `k`
issues exactly one point lookup, stores the result in the cache (a miss
recorded as `undefined`), and a later `get k` answers from the cache with
no further statement. -/
theorem get_caches_single_lookup (t : WebSQLTransaction) (b : Backing)
    (k : String) (hc : cacheGet t.cache k = none) (ht : t.tx = true)
    (hwf : ∀ s, backingLookup b k = some s → (jsonParse s).isSome = true) :
    ∃ v t', t.get b k = .ok (v, t', [.selectEntry k]) ∧
      cacheGet t'.cache k = some ⟨v, false⟩ ∧
      t'.tx = t.tx ∧
      t'.get b k = .ok (v, t', []) ∧
      (backingLookup b k = none → v = none) ∧
      (∀ s, backingLookup b k = some s → ∃ w, jsonParse s = some w ∧ v = some w) := by
  cases hb : backingLookup b k with
  | none =>
    refine ⟨none, { t with cache := cacheSet t.cache k ⟨none, false⟩ },
      ?_, cacheGet_cacheSet_self .., rfl, ?_, fun _ => rfl,
      fun s hs => by cases hs⟩
    · simp [WebSQLTransaction.get, hc, ht, hb]
    · simp [WebSQLTransaction.get, cacheGet_cacheSet_self]
  | some s0 =>
    obtain ⟨w, hw⟩ := Option.isSome_iff_exists.mp (hwf s0 hb)
    refine ⟨some w, { t with cache := cacheSet t.cache k ⟨some w, false⟩ },
      ?_, cacheGet_cacheSet_self .., rfl, ?_, by simp [hb],
      fun s hs => by injection hs with h2; subst h2; exact ⟨w, hw, rfl⟩⟩
    · simp [WebSQLTransaction.get, hc, ht, hb, hw]
    · simp [WebSQLTransaction.get, cacheGet_cacheSet_self]

/-- Witness for C5: a fresh open transaction reading `"a"` from a backing
table whose row holds the JSON text `"hi"` issues one select, caches the
parsed string, and the second read is served from the cache. -/
theorem get_caches_single_lookup_witness :
    ∃ v t', WebSQLTransaction.get ⟨true, false, []⟩
        [("a", String.mk ['"', 'h', 'i', '"'])] "a" = .ok (v, t', [.selectEntry "a"]) ∧
      cacheGet t'.cache "a" = some ⟨v, false⟩ ∧
      t'.tx = true ∧
      t'.get [("a", String.mk ['"', 'h', 'i', '"'])] "a" = .ok (v, t', []) ∧
      (backingLookup [("a", String.mk ['"', 'h', 'i', '"'])] "a" = none → v = none) ∧
      (∀ s, backingLookup [("a", String.mk ['"', 'h', 'i', '"'])] "a" = some s →
        ∃ w, jsonParse s = some w ∧ v = some w) :=
  get_caches_single_lookup ⟨true, false, []⟩ [("a", String.mk ['"', 'h', 'i', '"'])] "a"
    rfl rfl (by intro s hs; simp [backingLookup] at hs; subst hs; decide)

/-! ## Round-trip of the JSON encoding: digits -/

/-- A character list whose head (if any) is not a decimal digit; such a
tail cannot extend a greedy number parse. -/
def goodTail : List Char → Bool
  | [] => true
  | c :: _ => !(isDigitChar c)

/-- The code point of `digitChar d` for `d < 10`. -/
theorem digitChar_toNat (d : Nat) (h : d < 10) : (digitChar d).toNat = 48 + d := by
  interval_cases d <;> decide

/-- `digitChar d` is a digit character for `d < 10`. -/
theorem isDigitChar_digitChar (d : Nat) (h : d < 10) :
    isDigitChar (digitChar d) = true := by
  interval_cases d <;> decide

/-- `parseDigits` stops at a non-digit head. -/
theorem parseDigits_goodTail (rest : List Char) (acc : Nat)
    (h : goodTail rest = true) : parseDigits rest acc = (acc, rest) := by
  cases rest with
  | nil => rfl
  | cons c cs =>
    have hc : isDigitChar c = false := by simpa [goodTail] using h
    simp [parseDigits, hc]

/-- One greedy step of `parseDigits` on a digit head. -/
theorem parseDigits_cons_digit (c : Char) (cs : List Char) (acc : Nat)
    (h : isDigitChar c = true) :
    parseDigits (c :: cs) acc = parseDigits cs (acc * 10 + (c.toNat - 48)) := by
  simp [parseDigits, h]

/-- Reading back the fueled decimal print: consuming the printed digits of
`n` multiplies the accumulator by `10 ^ (number of digits)` and adds `n`. -/
theorem parseDigits_printNatAux :
    ∀ (fuel n acc : Nat) (rest : List Char), n < fuel →
      parseDigits (printNatAux fuel n ++ rest) acc =
        parseDigits rest (acc * 10 ^ (printNatAux fuel n).length + n)
  | 0, n, _, _, h => absurd h (by omega)
  | fuel + 1, n, acc, rest, h => by
    by_cases h10 : n < 10
    · have hd := isDigitChar_digitChar n h10
      have hv := digitChar_toNat n h10
      simp [printNatAux, h10, parseDigits, hd, hv]
    · have hrec : n / 10 < fuel := by omega
      have hd := isDigitChar_digitChar (n % 10) (by omega)
      have hv := digitChar_toNat (n % 10) (by omega)
      have ih := parseDigits_printNatAux fuel (n / 10) acc
        (digitChar (n % 10) :: rest) hrec
      have h1 : printNatAux (fuel + 1) n ++ rest =
          printNatAux fuel (n / 10) ++ (digitChar (n % 10) :: rest) := by
        simp [printNatAux, h10]
      rw [h1, ih, parseDigits_cons_digit _ _ _ hd, hv]
      congr 1
      have h2 : (printNatAux (fuel + 1) n).length =
          (printNatAux fuel (n / 10)).length + 1 := by
        simp [printNatAux, h10]
      have h4 : 48 + n % 10 - 48 = n % 10 := by omega
      rw [h4, h2, pow_succ]
      have h5 : (acc * 10 ^ (printNatAux fuel (n / 10)).length + n / 10) * 10 +
            n % 10 =
          acc * (10 ^ (printNatAux fuel (n / 10)).length * 10) +
            (n / 10 * 10 + n % 10) := by ring
      rw [h5]
      have h6 : n / 10 * 10 + n % 10 = n := by omega
      rw [h6]

/-- Reading back `printNat n` before a non-digit tail yields exactly `n`. -/
theorem parseDigits_printNat (n : Nat) (rest : List Char)
    (h : goodTail rest = true) :
    parseDigits (printNat n ++ rest) 0 = (n, rest) := by
  rw [printNat, parseDigits_printNatAux (n + 1) n 0 rest (by omega),
    parseDigits_goodTail rest _ h]
  simp

/-- The fueled decimal print is nonempty and starts with a digit. -/
theorem printNatAux_head :
    ∀ (fuel n : Nat), ∃ c tl,
      printNatAux (fuel + 1) n = c :: tl ∧ isDigitChar c = true
  | fuel, n => by
    by_cases h10 : n < 10
    · exact ⟨digitChar n, [], by simp [printNatAux, h10],
        isDigitChar_digitChar n h10⟩
    · cases fuel with
      | zero =>
        exact ⟨digitChar (n % 10), [], by simp [printNatAux, h10],
          isDigitChar_digitChar _ (by omega)⟩
      | succ f =>
        obtain ⟨c, tl, he, hd⟩ := printNatAux_head f (n / 10)
        refine ⟨c, tl ++ [digitChar (n % 10)], ?_, hd⟩
        rw [printNatAux, if_neg h10, he, List.cons_append]

/-- `printNat n` is nonempty and starts with a digit. -/
theorem printNat_head (n : Nat) :
    ∃ c tl, printNat n = c :: tl ∧ isDigitChar c = true :=
  printNatAux_head n n

/-- A digit character is none of the characters that select another
branch of the value parser or terminate a composite form. -/
theorem digit_ne_special (c : Char) (h : isDigitChar c = true) :
    c ≠ 'n' ∧ c ≠ 't' ∧ c ≠ 'f' ∧ c ≠ '"' ∧ c ≠ '[' ∧ c ≠ lbrace ∧
    c ≠ '-' ∧ c ≠ ']' ∧ c ≠ ',' ∧ c ≠ rbrace ∧ c ≠ ':' ∧ c ≠ '\\' := by
  refine ⟨?_, ?_, ?_, ?_, ?_, ?_, ?_, ?_, ?_, ?_, ?_, ?_⟩ <;>
    (rintro rfl; revert h; decide)

/-- The value parser on a digit head parses a maximal run of digits as a
non-negative number. -/
theorem parseValue_digit (f : Nat) (c : Char) (cs rest : List Char) (n : Nat)
    (h : isDigitChar c = true) (hp : parseDigits (c :: cs) 0 = (n, rest)) :
    parseValue (f + 1) (c :: cs) = some (.num (n : Int), rest) := by
  obtain ⟨h1, h2, h3, h4, h5, h6, h7, _⟩ := digit_ne_special c h
  simp [parseValue, h1, h2, h3, h4, h5, h6, h7, h, hp]

/-- The value parser on `-` followed by a digit parses a negated number. -/
theorem parseValue_neg (f : Nat) (c : Char) (cs rest : List Char) (n : Nat)
    (h : isDigitChar c = true) (hp : parseDigits (c :: cs) 0 = (n, rest)) :
    parseValue (f + 1) ('-' :: c :: cs) = some (.num (-(n : Int)), rest) := by
  simp [parseValue, h, hp, show ('-' : Char) ≠ lbrace from by decide]

/-- Round-trip of the integer encoding through the value parser. -/
theorem parseValue_printInt (f : Nat) (n : Int) (rest : List Char)
    (hr : goodTail rest = true) :
    parseValue (f + 1) (printInt n ++ rest) = some (.num n, rest) := by
  obtain ⟨c, tl, he, hd⟩ := printNat_head n.natAbs
  have hp := parseDigits_printNat n.natAbs rest hr
  rw [he, List.cons_append] at hp
  by_cases hneg : n < 0
  · have hpr : printInt n = '-' :: printNat n.natAbs := by simp [printInt, hneg]
    rw [hpr, he, List.cons_append, List.cons_append,
      parseValue_neg f c (tl ++ rest) rest n.natAbs hd hp]
    have hn : (-(n.natAbs : Int)) = n := by omega
    rw [hn]
  · have hpr : printInt n = printNat n.natAbs := by simp [printInt, hneg]
    rw [hpr, he, List.cons_append,
      parseValue_digit f c (tl ++ rest) rest n.natAbs hd hp]
    have hn : ((n.natAbs : Int)) = n := by omega
    rw [hn]

/-! ## Round-trip: strings -/

/-- Unescaping inverts escaping: the string-body parser consumes the
escaped body up to the closing quote and returns the original body. -/
theorem parseStringBody_escape :
    ∀ (s rest : List Char),
      parseStringBody (escapeList s ++ '"' :: rest) = some (s, rest)
  | [], rest => by
    show parseStringBody ('"' :: rest) = some ([], rest)
    unfold parseStringBody
    simp
  | c :: s, rest => by
    have ih := parseStringBody_escape s rest
    by_cases hq : c = '"'
    · subst hq
      simp only [escapeList, escapeChar, if_pos rfl, List.cons_append]
      unfold parseStringBody
      simp [ih]
    · by_cases hb : c = '\\'
      · subst hb
        simp only [escapeList, escapeChar, List.cons_append,
          show (('\\' : Char) = '"') = False from by simp, if_false, if_pos rfl]
        unfold parseStringBody
        simp [ih]
      · simp only [escapeList, escapeChar, if_neg hq, if_neg hb,
          List.cons_append, List.nil_append]
        unfold parseStringBody
        simp [hq, hb, ih]

/-- Rebuilding a string from its character data is the identity. -/
theorem String.mk_data (s : String) : String.mk s.data = s := rfl

/-- Round-trip of the string-literal encoding through the value parser. -/
theorem parseValue_printJString (f : Nat) (s : String) (rest : List Char) :
    parseValue (f + 1) (printJString s ++ rest) = some (.str s, rest) := by
  have hp := parseStringBody_escape s.data rest
  simp [printJString, parseValue, List.append_assoc, hp, String.mk_data]

/-! ## Round-trip: fuel accounting and head characters -/

mutual

/-- Fuel needed by the value parser to consume the printed form of a
value. -/
def jsizeV : JSONValue → Nat
  | .null => 1
  | .bool _ => 1
  | .num _ => 1
  | .str _ => 1
  | .arr xs => jsizeL xs + 1
  | .obj fs => jsizeF fs + 1

/-- Fuel needed by the array-items parser for a printed element list. -/
def jsizeL : JSONList → Nat
  | .nil => 0
  | .cons v rest => jsizeV v + jsizeL rest + 1

/-- Fuel needed by the object-items parser for a printed field list. -/
def jsizeF : JSONFields → Nat
  | .nil => 0
  | .cons _ v rest => jsizeV v + jsizeF rest + 1

end

/-- Every value needs at least one unit of fuel. -/
theorem jsizeV_pos (v : JSONValue) : 1 ≤ jsizeV v := by
  cases v <;> simp [jsizeV]

/-- A tail that starts with a non-digit (or is empty) is a good tail. -/
theorem goodTail_cons (c : Char) (cs : List Char)
    (h : isDigitChar c = false) : goodTail (c :: cs) = true := by
  simp [goodTail, h]

/-- The printed form of a value is nonempty and never starts with `]`
(so the array-items parser is entered for a nonempty printed array). -/
theorem printValue_head_spec (v : JSONValue) :
    ∃ c tl, printValue v = c :: tl ∧ c ≠ ']' := by
  cases v with
  | null => exact ⟨'n', _, rfl, by decide⟩
  | bool b =>
    cases b
    · exact ⟨'f', _, rfl, by decide⟩
    · exact ⟨'t', _, rfl, by decide⟩
  | num n =>
    by_cases hneg : n < 0
    · exact ⟨'-', printNat n.natAbs, by simp [printValue, printInt, hneg], by decide⟩
    · obtain ⟨c, tl, he, hd⟩ := printNat_head n.natAbs
      exact ⟨c, tl, by simp [printValue, printInt, hneg, he],
        (digit_ne_special c hd).2.2.2.2.2.2.2.1⟩
  | str s => exact ⟨'"', _, rfl, by decide⟩
  | arr xs => exact ⟨'[', _, rfl, by decide⟩
  | obj fs => exact ⟨lbrace, _, rfl, by decide⟩

/-- The printed body of a nonempty array is nonempty and never starts
with `]`. -/
theorem printArrayBody_cons_head (w : JSONValue) (ys : JSONList) :
    ∃ c tl, printArrayBody (.cons w ys) = c :: tl ∧ c ≠ ']' := by
  obtain ⟨c, tl, he, hne⟩ := printValue_head_spec w
  cases ys with
  | nil => exact ⟨c, tl, by simp [printArrayBody, he], hne⟩
  | cons z zs =>
    exact ⟨c, tl ++ ',' :: printArrayBody (.cons z zs),
      by simp [printArrayBody, he], hne⟩

/-- The printed body of a nonempty object starts with a quote. -/
theorem printObjBody_cons_head (k : String) (w : JSONValue) (ys : JSONFields) :
    ∃ Y, printObjBody (.cons k w ys) = '"' :: Y := by
  cases ys with
  | nil =>
    exact ⟨escapeList k.data ++ '"' :: ':' :: printValue w,
      by simp [printObjBody, printJString]⟩
  | cons k2 z zs =>
    exact ⟨escapeList k.data ++
        '"' :: ':' :: (printValue w ++ ',' :: printObjBody (.cons k2 z zs)),
      by simp [printObjBody, printJString]⟩

mutual

/-- Parsing inverts printing for one value: with fuel at least `jsizeV v`
and a remainder not starting with a digit, the value parser consumes
exactly the printed form and returns the value. -/
theorem parseValue_printValue (v : JSONValue) (fuel : Nat) (rest : List Char)
    (hf : jsizeV v ≤ fuel) (hr : goodTail rest = true) :
    parseValue fuel (printValue v ++ rest) = some (v, rest) := by
  obtain ⟨f, rfl⟩ : ∃ f, fuel = f + 1 := by
    have := jsizeV_pos v
    cases fuel with
    | zero => omega
    | succ f => exact ⟨f, rfl⟩
  cases v with
  | null =>
    simp [printValue, parseValue, show kw "null" = ['n', 'u', 'l', 'l'] from rfl]
  | bool b =>
    cases b <;>
      simp [printValue, parseValue, show kw "true" = ['t', 'r', 'u', 'e'] from rfl,
        show kw "false" = ['f', 'a', 'l', 's', 'e'] from rfl]
  | num n =>
    have h := parseValue_printInt f n rest hr
    simpa [printValue] using h
  | str s =>
    have h := parseValue_printJString f s rest
    simpa [printValue] using h
  | arr xs =>
    cases xs with
    | nil => simp [printValue, printArrayBody, parseValue]
    | cons w ys =>
      obtain ⟨c0, tl0, he0, hne0⟩ := printArrayBody_cons_head w ys
      have hf' : jsizeL (JSONList.cons w ys) + 1 ≤ f + 1 := by
        simpa [jsizeV] using hf
      have ha := parseArrayItems_printArrayBody (.cons w ys) f rest
        (by simp) (by omega)
      have hb : printArrayBody (JSONList.cons w ys) ++ ']' :: rest =
          c0 :: (tl0 ++ ']' :: rest) := by rw [he0]; simp
      rw [show printValue (.arr (.cons w ys)) ++ rest =
        '[' :: (printArrayBody (JSONList.cons w ys) ++ ']' :: rest) from by
          simp [printValue]]
      rw [hb] at ha ⊢
      simp [parseValue, hne0, ha]
  | obj fs =>
    cases fs with
    | nil =>
      simp [printValue, printObjBody, parseValue,
        show lbrace ≠ 'n' from by decide, show lbrace ≠ 't' from by decide,
        show lbrace ≠ 'f' from by decide, show lbrace ≠ '"' from by decide,
        show lbrace ≠ '[' from by decide]
    | cons k w ys =>
      obtain ⟨Y, hY⟩ := printObjBody_cons_head k w ys
      have hf' : jsizeF (JSONFields.cons k w ys) + 1 ≤ f + 1 := by
        simpa [jsizeV] using hf
      have ho := parseObjItems_printObjBody (.cons k w ys) f rest
        (by simp) (by omega)
      have hb : printObjBody (JSONFields.cons k w ys) ++ rbrace :: rest =
          '"' :: (Y ++ rbrace :: rest) := by rw [hY]; simp
      rw [show printValue (.obj (.cons k w ys)) ++ rest =
        lbrace :: (printObjBody (JSONFields.cons k w ys) ++ rbrace :: rest) from by
          simp [printValue]]
      rw [hb] at ho ⊢
      simp [parseValue, ho,
        show lbrace ≠ 'n' from by decide, show lbrace ≠ 't' from by decide,
        show lbrace ≠ 'f' from by decide, show lbrace ≠ '"' from by decide,
        show lbrace ≠ '[' from by decide, show ('"' : Char) ≠ rbrace from by decide]

/-- Parsing inverts printing for a nonempty array body followed by the
closing bracket. -/
theorem parseArrayItems_printArrayBody (xs : JSONList) (fuel : Nat)
    (rest : List Char) (hne : xs ≠ .nil) (hf : jsizeL xs ≤ fuel) :
    parseArrayItems fuel (printArrayBody xs ++ ']' :: rest) = some (xs, rest) := by
  cases xs with
  | nil => exact absurd rfl hne
  | cons v ys =>
    have hf' : jsizeV v + jsizeL ys + 1 ≤ fuel := by simpa [jsizeL] using hf
    obtain ⟨f, rfl⟩ : ∃ f, fuel = f + 1 := by
      cases fuel with
      | zero => omega
      | succ f => exact ⟨f, rfl⟩
    cases ys with
    | nil =>
      have h0 : jsizeL JSONList.nil = 0 := rfl
      have hv := parseValue_printValue v f (']' :: rest) (by omega)
        (goodTail_cons _ _ (by decide))
      rw [show printArrayBody (.cons v .nil) ++ ']' :: rest =
        printValue v ++ ']' :: rest from by simp [printArrayBody]]
      simp [parseArrayItems, hv]
    | cons w zs =>
      have hv := parseValue_printValue v f
        (',' :: (printArrayBody (.cons w zs) ++ ']' :: rest)) (by omega)
        (goodTail_cons _ _ (by decide))
      have ha := parseArrayItems_printArrayBody (.cons w zs) f rest
        (by simp) (by omega)
      rw [show printArrayBody (.cons v (.cons w zs)) ++ ']' :: rest =
        printValue v ++ (',' :: (printArrayBody (.cons w zs) ++ ']' :: rest)) from by
          simp [printArrayBody]]
      simp [parseArrayItems, hv, ha]

/-- Parsing inverts printing for a nonempty object body followed by the
closing brace. -/
theorem parseObjItems_printObjBody (fs : JSONFields) (fuel : Nat)
    (rest : List Char) (hne : fs ≠ .nil) (hf : jsizeF fs ≤ fuel) :
    parseObjItems fuel (printObjBody fs ++ rbrace :: rest) = some (fs, rest) := by
  cases fs with
  | nil => exact absurd rfl hne
  | cons k v ys =>
    have hf' : jsizeV v + jsizeF ys + 1 ≤ fuel := by simpa [jsizeF] using hf
    obtain ⟨f, rfl⟩ : ∃ f, fuel = f + 1 := by
      cases fuel with
      | zero => omega
      | succ f => exact ⟨f, rfl⟩
    cases ys with
    | nil =>
      have h0 : jsizeF JSONFields.nil = 0 := rfl
      have hst := parseStringBody_escape k.data
        (':' :: (printValue v ++ rbrace :: rest))
      have hv := parseValue_printValue v f (rbrace :: rest) (by omega)
        (goodTail_cons _ _ (by decide))
      rw [show printObjBody (.cons k v .nil) ++ rbrace :: rest =
        '"' :: (escapeList k.data ++
          '"' :: (':' :: (printValue v ++ rbrace :: rest))) from by
          simp [printObjBody, printJString]]
      simp [parseObjItems, hst, hv, String.mk_data,
        show rbrace ≠ ',' from by decide]
    | cons k2 w zs =>
      have hst := parseStringBody_escape k.data
        (':' :: (printValue v ++
          ',' :: (printObjBody (.cons k2 w zs) ++ rbrace :: rest)))
      have hv := parseValue_printValue v f
        (',' :: (printObjBody (.cons k2 w zs) ++ rbrace :: rest)) (by omega)
        (goodTail_cons _ _ (by decide))
      have ho := parseObjItems_printObjBody (.cons k2 w zs) f rest
        (by simp) (by omega)
      rw [show printObjBody (.cons k v (.cons k2 w zs)) ++ rbrace :: rest =
        '"' :: (escapeList k.data ++
          '"' :: (':' :: (printValue v ++
            ',' :: (printObjBody (.cons k2 w zs) ++ rbrace :: rest)))) from by
          simp [printObjBody, printJString]]
      simp [parseObjItems, hst, hv, ho, String.mk_data]

end

mutual

/-- The fuel a value needs is at most the length of its printed form. -/
theorem jsizeV_le_length (v : JSONValue) : jsizeV v ≤ (printValue v).length := by
  cases v with
  | null => simp [jsizeV, printValue, show kw "null" = ['n', 'u', 'l', 'l'] from rfl]
  | bool b =>
    cases b <;>
      simp [jsizeV, printValue, show kw "true" = ['t', 'r', 'u', 'e'] from rfl,
        show kw "false" = ['f', 'a', 'l', 's', 'e'] from rfl]
  | num n =>
    obtain ⟨c, tl, he, _⟩ := printNat_head n.natAbs
    by_cases hneg : n < 0 <;> simp [jsizeV, printValue, printInt, hneg, he]
  | str s => simp [jsizeV, printValue, printJString]
  | arr xs =>
    have h := jsizeL_le_length xs
    simp only [jsizeV, printValue, List.length_cons, List.length_append,
      List.length_singleton]
    omega
  | obj fs =>
    have h := jsizeF_le_length fs
    simp only [jsizeV, printValue, List.length_cons, List.length_append,
      List.length_singleton]
    omega

/-- The fuel an array body needs is at most its printed length plus one. -/
theorem jsizeL_le_length (xs : JSONList) :
    jsizeL xs ≤ (printArrayBody xs).length + 1 := by
  cases xs with
  | nil => simp [jsizeL, printArrayBody]
  | cons v ys =>
    have hv := jsizeV_le_length v
    cases ys with
    | nil =>
      simp only [jsizeL, printArrayBody]
      omega
    | cons w zs =>
      have hl := jsizeL_le_length (.cons w zs)
      simp only [jsizeL] at hl ⊢
      simp only [printArrayBody, List.length_append, List.length_cons]
      omega

/-- The fuel an object body needs is at most its printed length plus one. -/
theorem jsizeF_le_length (fs : JSONFields) :
    jsizeF fs ≤ (printObjBody fs).length + 1 := by
  cases fs with
  | nil => simp [jsizeF, printObjBody]
  | cons k v ys =>
    have hv := jsizeV_le_length v
    cases ys with
    | nil =>
      simp only [jsizeF, printObjBody, List.length_append, List.length_cons]
      omega
    | cons k2 w zs =>
      have hl := jsizeF_le_length (.cons k2 w zs)
      simp only [jsizeF] at hl ⊢
      simp only [printObjBody, List.length_append, List.length_cons]
      omega

end

/-- C9: round-trip law.  For every JSON-representable value `v` of the
model (null, booleans, integer numbers, strings, arrays and objects,
arbitrarily nested), decoding the JSON-text encoding of `v` — the text
`commit()` writes and `get()` parses — yields exactly `v`. -/
theorem json_roundtrip (v : JSONValue) : jsonParse (jsonStringify v) = some v := by
  have h := parseValue_printValue v (printValue v).length []
    (jsizeV_le_length v) rfl
  rw [List.append_nil] at h
  simp [jsonParse, jsonStringify, h]
